import Mathlib

/-!
Shallow embedding of the Discrete Hankel Transform (DHT) module of fbpic
(`src/fbpic/fields/spectral_transform/hankel.py`), together with proofs of
the specification claims about it.

The scipy special functions `jn` (Bessel function of the first kind of
integer order) and `jn_zeros` (positive zeros of a Bessel function) are
external library routines; they enter the embedding as function parameters
`jn : ℤ → ℝ → ℝ` and `jnZeros : ℤ → ℕ → ℝ` (`jnZeros m k` is the k-th
positive zero of `J_m`, 0-indexed, so scipy's `jn_zeros(m, n)` is the list
`[jnZeros m 0, …, jnZeros m (n-1)]`).  Floating-point arithmetic is
idealised as exact real (resp. complex) arithmetic, and `np.pi` as `Real.pi`.
-/

set_option linter.unusedVariables false

noncomputable section

namespace Hankel

/-- Errors raised by the module.  `invalidMode` is the
`ValueError('m must be either p-1, p or p+1')` of `DHT.__init__` (line 73);
`nameError` is the `NameError` raised at line 118 when evaluating
`np.empty((N, N))` (the name `N` is bound nowhere in the module);
`shapeMismatch` is the `ValueError('The shape of F or G is different …')`
raised on the GPU execution path of `transform`/`inverse_transform`;
`dotShapeError` is the `ValueError` numpy's `np.dot` raises when the operand
shapes are not aligned or the `out=` array has the wrong shape. -/
inductive PyErr where
  | invalidMode
  | nameError
  | shapeMismatch
  | dotShapeError
  deriving DecidableEq

/-- Line 85/87: `alphas = np.hstack((np.array([0.]), jn_zeros(m, Nr-1)))`
when `m != 0`, else `alphas = jn_zeros(m, Nr)`. -/
def alphasF (jnZeros : ℤ → ℕ → ℝ) (m : ℤ) (Nr : ℕ) : Fin Nr → ℝ :=
  fun i =>
    if m ≠ 0 then
      if (i : ℕ) = 0 then 0 else jnZeros m ((i : ℕ) - 1)
    else jnZeros m (i : ℕ)

/-- Line 90: `self.nu = 1./(2*np.pi*rmax) * alphas`. -/
def nuF (jnZeros : ℤ → ℕ → ℝ) (m : ℤ) (Nr : ℕ) (rmax : ℝ) : Fin Nr → ℝ :=
  fun i => 1 / (2 * Real.pi * rmax) * alphasF jnZeros m Nr i

/-- Line 93: `self.r = (rmax*1./Nr) * (np.arange(Nr) + 0.5)`. -/
def rF (rmax : ℝ) (Nr : ℕ) : Fin Nr → ℝ :=
  fun i => rmax * (1 / (Nr : ℝ)) * (((i : ℕ) : ℝ) + 0.5)

/-- Lines 101-104: `p_denom = p+1 if p == m else p`. -/
def pDenom (p m : ℤ) : ℤ := if p = m then p + 1 else p

/-- Line 105: `denom = np.pi * rmax**2 * jn(p_denom, alphas)**2`. -/
def denomF (jn : ℤ → ℝ → ℝ) (jnZeros : ℤ → ℕ → ℝ) (p m : ℤ) (Nr : ℕ)
    (rmax : ℝ) : Fin Nr → ℝ :=
  fun i => Real.pi * rmax ^ 2 * jn (pDenom p m) (alphasF jnZeros m Nr i) ^ 2

/-- Line 106: `num = jn(p, 2*np.pi*self.r[np.newaxis,:]*self.nu[:,np.newaxis])`,
so `num[i, j] = jn(p, 2*pi*r[j]*nu[i])`. -/
def numF (jn : ℤ → ℝ → ℝ) (jnZeros : ℤ → ℕ → ℝ) (p m : ℤ) (Nr : ℕ)
    (rmax : ℝ) : Fin Nr → Fin Nr → ℝ :=
  fun i j => jn p (2 * Real.pi * rF rmax Nr j * nuF jnZeros m Nr rmax i)

/-- Lines 100-115: construction of the inverse matrix `invM`.
For `m != 0`, rows `1:` are `num[1:, :] / denom[1:, None]` and row `0` is the
closed-form `r**(m-1) / (pi * rmax**(m+1))` when `p == m-1`, else all zeros;
for `m == 0` every row is `num / denom`. -/
def invMF (jn : ℤ → ℝ → ℝ) (jnZeros : ℤ → ℕ → ℝ) (p m : ℤ) (Nr : ℕ)
    (rmax : ℝ) : Matrix (Fin Nr) (Fin Nr) ℝ :=
  fun i j =>
    if m ≠ 0 then
      if (i : ℕ) = 0 then
        if p = m - 1 then rF rmax Nr j ^ (m - 1) / (Real.pi * rmax ^ (m + 1))
        else 0
      else numF jn jnZeros p m Nr rmax i j / denomF jn jnZeros p m Nr rmax i
    else numF jn jnZeros p m Nr rmax i j / denomF jn jnZeros p m Nr rmax i

/-- The submatrix `invM[1:, :]` used at line 120. -/
def lowerRows {Nr : ℕ} (W : Matrix (Fin Nr) (Fin Nr) ℝ) :
    Matrix (Fin (Nr - 1)) (Fin Nr) ℝ :=
  fun i j => W ⟨(i : ℕ) + 1, by have := i.isLt; omega⟩ j

/-- Modelled from the spec: the forward-matrix allocation at line 118 of
`hankel.py` reads `self.M = np.empty((N, N))` where the name `N` is unbound
(the configured size is `Nr`); the spec's design note directs implementers to
allocate the matrix with the configured `Nr` instead of reproducing the
defect.  With that allocation, the entries are exactly those of source lines
119-123: when `m != 0 and p != m-1`, columns `1:` of `M` are
`np.linalg.pinv(invM[1:, :])` and column `0` is zero; otherwise
`M = np.linalg.inv(invM)`.  `np.linalg.pinv` enters as the function
parameter `pinv` (the theorems that use this branch carry the Moore-Penrose
identity they need as a hypothesis), and `np.linalg.inv` is modelled as
Mathlib's matrix inverse (the theorems that use it carry invertibility as a
hypothesis, matching numpy's raising `LinAlgError` on singular input). -/
def mFixedF (pinv : (a b : ℕ) → Matrix (Fin a) (Fin b) ℝ → Matrix (Fin b) (Fin a) ℝ)
    (jn : ℤ → ℝ → ℝ) (jnZeros : ℤ → ℕ → ℝ) (p m : ℤ) (Nr : ℕ) (rmax : ℝ) :
    Matrix (Fin Nr) (Fin Nr) ℝ :=
  if m ≠ 0 ∧ p ≠ m - 1 then
    fun i j =>
      if hj : (j : ℕ) = 0 then 0
      else pinv (Nr - 1) Nr (lowerRows (invMF jn jnZeros p m Nr rmax)) i
        ⟨(j : ℕ) - 1, by have := j.isLt; omega⟩
  else (invMF jn jnZeros p m Nr rmax)⁻¹

/-- The state a successfully constructed `DHT` object would hold
(lines 76-123).  The GPU scratch buffers `d_in`/`d_out` hold no observable
data at construction (they are zero-filled and overwritten on every call),
so they are not part of the state; their shape `(Nz, Nr)` appears explicitly
in the dynamic-shape execution model below. -/
structure DHTState (Nr : ℕ) where
  use_cuda : Bool
  p : ℤ
  m : ℤ
  rmax : ℝ
  nu : Fin Nr → ℝ
  r : Fin Nr → ℝ
  invM : Matrix (Fin Nr) (Fin Nr) ℝ
  M : Matrix (Fin Nr) (Fin Nr) ℝ

/-- Line 56: the fallback warning (`'** Cuda not available …'`) is printed
exactly when GPU execution is requested but CUDA is not installed. -/
def fallbackWarned (use_cuda cudaInstalled : Bool) : Bool :=
  use_cuda && !cudaInstalled

/-- `DHT.__init__` as written (lines 53-123): resolve the execution mode
(falling back to CPU when CUDA is unavailable), check the azimuthal mode,
compute the grids and the inverse matrix, then evaluate
`self.M = np.empty((N, N))` at line 118 — `N` is an unbound name, so Python
raises `NameError` and construction never completes. -/
def dhtInitPy (cudaInstalled : Bool) (jn : ℤ → ℝ → ℝ) (jnZeros : ℤ → ℕ → ℝ)
    (p m : ℤ) (Nr Nz : ℕ) (rmax : ℝ) (use_cuda : Bool) :
    Except PyErr (DHTState Nr) :=
  -- lines 55-59: `self.use_cuda` resolution (buffer allocation has no
  -- observable effect on the state)
  let uc := use_cuda && cudaInstalled
  -- lines 72-73: `if (m in [p-1, p, p+1]) == False: raise ValueError(…)`
  if ¬(m = p - 1 ∨ m = p ∨ m = p + 1) then Except.error PyErr.invalidMode
  else
    -- lines 81-115 complete normally …
    let nu := nuF jnZeros m Nr rmax
    let r := rF rmax Nr
    let invM := invMF jn jnZeros p m Nr rmax
    -- … but line 118 evaluates the unbound name `N`:
    Except.error PyErr.nameError

/-- Modelled from the spec: `DHT.__init__` with the forward-matrix
allocation of line 118 repaired to use the configured `Nr`, as the spec's
design note directs (everything else is the source construction path
unchanged).  Construction then completes for every valid mode. -/
def dhtInitFixed
    (pinv : (a b : ℕ) → Matrix (Fin a) (Fin b) ℝ → Matrix (Fin b) (Fin a) ℝ)
    (cudaInstalled : Bool) (jn : ℤ → ℝ → ℝ) (jnZeros : ℤ → ℕ → ℝ)
    (p m : ℤ) (Nr Nz : ℕ) (rmax : ℝ) (use_cuda : Bool) :
    Except PyErr (DHTState Nr) :=
  let uc := use_cuda && cudaInstalled
  if ¬(m = p - 1 ∨ m = p ∨ m = p + 1) then Except.error PyErr.invalidMode
  else
    Except.ok
      { use_cuda := uc
        p := p
        m := m
        rmax := rmax
        nu := nuF jnZeros m Nr rmax
        r := rF rmax Nr
        invM := invMF jn jnZeros p m Nr rmax
        M := mFixedF pinv jn jnZeros p m Nr rmax }

/-- Whether an `Except` value is a success. -/
def isOkB {ε α : Type _} : Except ε α → Bool
  | Except.ok _ => true
  | Except.error _ => false

/-- The stored `use_cuda` flag of a construction result, when it succeeded. -/
def initUseCuda {Nr : ℕ} : Except PyErr (DHTState Nr) → Option Bool
  | Except.ok st => some st.use_cuda
  | Except.error _ => none

/-- The CPU execution path of `transform`/`inverse_transform`
(lines 185 and 214): `np.dot(F, W, out=G)` with `W` the stored real matrix
(`self.M` resp. `self.invM`) and `F` a complex array; numpy promotes `W` to
complex, so the result is `F * W` over `ℂ`. -/
def transformMat {Nz Nr : ℕ} (W : Matrix (Fin Nr) (Fin Nr) ℝ)
    (F : Matrix (Fin Nz) (Fin Nr) ℂ) : Matrix (Fin Nz) (Fin Nr) ℂ :=
  F * W.map (algebraMap ℝ ℂ)

/-- Modelled from the spec: `cuda_copy_2d_to_2d` (imported from
`fbpic.fields.spectral_transform.cuda_methods`, which is not part of this
excerpt) copies a 2-D array between C order and Fortran order preserving the
logical element-to-position mapping (spec §4.3: a data-marshalling step,
element-position-preserving).  Memory order is not observable in this model,
so the copy is the identity on the logical matrix. -/
def cudaCopy2d {a b : ℕ} (A : Matrix (Fin a) (Fin b) ℂ) :
    Matrix (Fin a) (Fin b) ℂ :=
  fun i j => A i j

/-- Modelled from the spec: `cublas.Blas().gemm('N', 'N', m, n, k, alpha, A,
B, beta, C)` (pyculib, not part of this excerpt) overwrites `C` with
`alpha * (A @ B) + beta * C` (spec §4.3: a general dense matrix multiply with
scale factors for the product and the accumulator). -/
def gemmNN {a b c : ℕ} (alpha : ℂ) (A : Matrix (Fin a) (Fin b) ℂ)
    (B : Matrix (Fin b) (Fin c) ℂ) (beta : ℂ) (C : Matrix (Fin a) (Fin c) ℂ) :
    Matrix (Fin a) (Fin c) ℂ :=
  alpha • (A * B) + beta • C

/-- The GPU execution path of `transform`/`inverse_transform`
(lines 171-182 and 200-211) on a well-shaped input: copy `F` into the
Fortran-order scratch buffer `d_in`, run
`gemm('N','N', Nz, Nr, Nr, 1.0, d_in, d_W, 0., d_out)` against the
device-resident complex copy of the stored matrix, then copy `d_out` back
into `G`.  `scratch` is the previous content of `d_out` (it is scaled by
`beta = 0`). -/
def transformGPU {Nz Nr : ℕ} (W : Matrix (Fin Nr) (Fin Nr) ℝ)
    (F : Matrix (Fin Nz) (Fin Nr) ℂ) (scratch : Matrix (Fin Nz) (Fin Nr) ℂ) :
    Matrix (Fin Nz) (Fin Nr) ℂ :=
  cudaCopy2d (gemmNN 1 (cudaCopy2d F) (W.map (algebraMap ℝ ℂ)) 0 scratch)

/-- A numpy 2-D complex array of dynamic shape: `entry z j` is meaningful
for `z < rows` and `j < cols`. -/
structure NpArr where
  rows : ℕ
  cols : ℕ
  entry : ℕ → ℕ → ℂ

/-- The stored `Nr × Nr` real matrix extended to total index functions
(out-of-range entries are irrelevant and read as `0`). -/
def wExt (Nr : ℕ) (W : Matrix (Fin Nr) (Fin Nr) ℝ) : ℕ → ℕ → ℝ :=
  fun k j => if h : k < Nr ∧ j < Nr then W ⟨k, h.1⟩ ⟨j, h.2⟩ else 0

/-- The matrix product `F @ W` written by `np.dot(F, W, out=G)` into the
output array: shape `(F.rows, Nr)`. -/
def npDotRes (Nr : ℕ) (W : Matrix (Fin Nr) (Fin Nr) ℝ) (F : NpArr) : NpArr :=
  ⟨F.rows, Nr, fun z j =>
    Finset.sum (Finset.range F.cols) fun k =>
      F.entry z k * ((wExt Nr W k j : ℝ) : ℂ)⟩

/-- `np.dot(F, W, out=G)` with dynamic shapes (the CPU execution path,
lines 185/214, performs no shape check of its own): numpy raises a
`ValueError` if the operand shapes are not aligned (`F.cols ≠ Nr`) or if the
supplied `out` array does not have the result's shape `(F.rows, Nr)`; both
checks happen before anything is written, so an error leaves `G` untouched
(an error result carries no output array). -/
def npDotOut (Nr : ℕ) (W : Matrix (Fin Nr) (Fin Nr) ℝ) (F G : NpArr) :
    Except PyErr NpArr :=
  if F.cols = Nr then
    if G.rows = F.rows ∧ G.cols = Nr then Except.ok (npDotRes Nr W F)
    else Except.error PyErr.dotShapeError
  else Except.error PyErr.dotShapeError

/-- The GPU execution path with dynamic shapes (lines 171-182): first the
check `F.shape != d_in.shape or G.shape != d_out.shape` against the
`(Nz, Nr)` buffers allocated at construction, raising before anything is
written; then the marshalling-gemm-marshalling sequence, whose result equals
the CPU product (`C9_gpu_cpu_equiv` below). -/
def gpuApplyDyn (Nz Nr : ℕ) (W : Matrix (Fin Nr) (Fin Nr) ℝ) (F G : NpArr) :
    Except PyErr NpArr :=
  if (F.rows, F.cols) ≠ (Nz, Nr) ∨ (G.rows, G.cols) ≠ (Nz, Nr) then
    Except.error PyErr.shapeMismatch
  else Except.ok (npDotRes Nr W F)

/-- `DHT.transform` (and, with `W := invM`, `DHT.inverse_transform`) with
dynamic array shapes: the branch on the stored `use_cuda` flag is all the
method does before delegating (lines 171 and 184); only the GPU branch
checks shapes against the configured `(Nz, Nr)`. -/
def transformDyn (use_cuda : Bool) (Nz Nr : ℕ)
    (W : Matrix (Fin Nr) (Fin Nr) ℝ) (F G : NpArr) : Except PyErr NpArr :=
  if use_cuda then gpuApplyDyn Nz Nr W F G else npDotOut Nr W F G

/-- Concrete stand-in for scipy's `jn` used to instantiate witnesses and
counterexamples: the constant function 1.  (Wherever a conclusion depends on
actual Bessel values, the relevant property is carried as a hypothesis.) -/
def toyJn : ℤ → ℝ → ℝ := fun _ _ => 1

/-- Concrete stand-in for scipy's `jn_zeros` used to instantiate witnesses
and counterexamples: `toyZeros m k = k + 1`, which is positive and strictly
increasing in `k` like genuine Bessel zeros. -/
def toyZeros : ℤ → ℕ → ℝ := fun _ k => (k : ℝ) + 1

/-- Concrete stand-in for `np.linalg.pinv` for instances whose construction
never evaluates it (or whose degenerate branch ignores it). -/
def pinv0 : (a b : ℕ) → Matrix (Fin a) (Fin b) ℝ → Matrix (Fin b) (Fin a) ℝ :=
  fun _ _ _ => fun _ _ => 0

/-- Concrete stand-in for `np.linalg.pinv` adapted to the witness instance
`p = 1, m = 1, Nr = 2, rmax = 1` with `toyJn`/`toyZeros`: there
`invM[1:, :] = [[1/pi, 1/pi]]`, whose Moore-Penrose pseudoinverse is the
column `[[pi/2], [pi/2]]` — the constant function below agrees with it on
that input, as the identity `A * pinv A = 1` proved in the witness attests. -/
def pinvW : (a b : ℕ) → Matrix (Fin a) (Fin b) ℝ → Matrix (Fin b) (Fin a) ℝ :=
  fun _ _ _ => fun _ _ => Real.pi / 2

/-- The mask matrix `diag(0, 1, …, 1)`: the product `invM * M` in the
degenerate branch (`m ≠ 0`, `p ≠ m-1`). -/
def zeroColMask (Nr : ℕ) : Matrix (Fin Nr) (Fin Nr) ℝ :=
  fun i j => if i = j ∧ (j : ℕ) ≠ 0 then 1 else 0

/-- Input array for the C1 counterexample: the `1 × 2` complex array
`[[1, 0]]`. -/
def cexF : Matrix (Fin 1) (Fin 2) ℂ :=
  fun _ j => if (j : ℕ) = 0 then 1 else 0

/-- Input array for the C1 witness, degenerate branch: the `1 × 2` complex
array with every entry 3. -/
def cG3 : Matrix (Fin 1) (Fin 2) ℂ := fun _ _ => 3

/-- Input array for the C1 witness, invertible branch: the `1 × 1` complex
array `[[2]]`. -/
def cF2 : Matrix (Fin 1) (Fin 1) ℂ := fun _ _ => 2

/-- A `1 × 1` dynamic-shape array with every entry 1. -/
def arr11 : NpArr := ⟨1, 1, fun _ _ => 1⟩

/-- A `1 × 1` dynamic-shape array with every entry 0. -/
def arr11z : NpArr := ⟨1, 1, fun _ _ => 0⟩

/-! ## Theorems for the claims -/

/-- Claim C5 (confirmed): for every `p` and every `m` with
`m ∉ {p-1, p, p+1}`, construction always fails with the invalid-mode
`ValueError`, surfaced at construction before any grid or matrix work, and
never recovered (the error is the final result). -/
theorem C5_invalid_mode (cudaInstalled : Bool) (jn : ℤ → ℝ → ℝ)
    (jnZeros : ℤ → ℕ → ℝ) (p m : ℤ) (Nr Nz : ℕ) (rmax : ℝ) (use_cuda : Bool)
    (hm : ¬(m = p - 1 ∨ m = p ∨ m = p + 1)) :
    dhtInitPy cudaInstalled jn jnZeros p m Nr Nz rmax use_cuda =
      Except.error PyErr.invalidMode := by
  simp only [dhtInitPy, if_pos hm]

/-- Claim C5 witness: the theorem applied at `p = 0, m = 5` (from the sweep
`p = 0..5`). -/
theorem C5_witness :
    ¬((5 : ℤ) = 0 - 1 ∨ (5 : ℤ) = 0 ∨ (5 : ℤ) = 0 + 1) ∧
    dhtInitPy false toyJn toyZeros 0 5 4 4 1 false =
      Except.error PyErr.invalidMode :=
  ⟨by decide, C5_invalid_mode false toyJn toyZeros 0 5 4 4 1 false (by decide)⟩

/-- Claim C3 (confirmed): for every input whose azimuthal mode passes the
validity check, construction raises the unhandled `NameError` coming from
the unbound size name `N` at the forward-matrix allocation (line 118);
consequently construction never completes successfully for any input
whatsoever. -/
theorem C3_name_error (cudaInstalled : Bool) (jn : ℤ → ℝ → ℝ)
    (jnZeros : ℤ → ℕ → ℝ) (p m : ℤ) (Nr Nz : ℕ) (rmax : ℝ) (use_cuda : Bool)
    (hm : m = p - 1 ∨ m = p ∨ m = p + 1) :
    dhtInitPy cudaInstalled jn jnZeros p m Nr Nz rmax use_cuda =
      Except.error PyErr.nameError ∧
    ∀ (ci2 : Bool) (jn2 : ℤ → ℝ → ℝ) (jz2 : ℤ → ℕ → ℝ) (p2 m2 : ℤ)
      (Nr2 Nz2 : ℕ) (rmax2 : ℝ) (uc2 : Bool),
      isOkB (dhtInitPy ci2 jn2 jz2 p2 m2 Nr2 Nz2 rmax2 uc2) = false := by
  constructor
  · simp only [dhtInitPy, if_neg (not_not_intro hm)]
  · intro ci2 jn2 jz2 p2 m2 Nr2 Nz2 rmax2 uc2
    unfold dhtInitPy
    split <;> rfl

/-- Claim C3 witness: the theorem applied at the valid mode
`p = 0, m = 0, Nr = 4, Nz = 8, rmax = 1`. -/
theorem C3_witness :
    ((0 : ℤ) = 0 - 1 ∨ (0 : ℤ) = 0 ∨ (0 : ℤ) = 0 + 1) ∧
    dhtInitPy false toyJn toyZeros 0 0 4 8 1 false =
      Except.error PyErr.nameError :=
  ⟨by decide,
    (C3_name_error false toyJn toyZeros 0 0 4 8 1 false (by decide)).1⟩

/-- Claim C2 (code_bug): the claim says construction with
`p = 0, m = 0, Nr = 4, rmax = 1` succeeds with `r = [0.125, 0.375, 0.625,
0.875]` and `nu` the scaled first four zeros of `J_0`; the code instead
raises `NameError` at line 118 for every such call, so construction never
succeeds.  The grids the construction path computes before the failing line
do have the claimed values: `r` as listed and `nu[i] = jn_zeros(0)[i] /
(2*pi*rmax)`. -/
theorem C2_construction_eval :
    (∀ (jn : ℤ → ℝ → ℝ) (jnZeros : ℤ → ℕ → ℝ),
      dhtInitPy false jn jnZeros 0 0 4 8 1 false =
        Except.error PyErr.nameError) ∧
    rF 1 4 ⟨0, by norm_num⟩ = 0.125 ∧
    rF 1 4 ⟨1, by norm_num⟩ = 0.375 ∧
    rF 1 4 ⟨2, by norm_num⟩ = 0.625 ∧
    rF 1 4 ⟨3, by norm_num⟩ = 0.875 ∧
    (∀ (jnZeros : ℤ → ℕ → ℝ) (i : Fin 4),
      nuF jnZeros 0 4 1 i = jnZeros 0 (i : ℕ) / (2 * Real.pi)) := by
  refine ⟨?_, ?_, ?_, ?_, ?_, ?_⟩
  · intro jn jnZeros
    simp [dhtInitPy]
  · simp only [rF]; norm_num
  · simp only [rF]; norm_num
  · simp only [rF]; norm_num
  · simp only [rF]; norm_num
  · intro jnZeros i
    simp only [nuF, alphasF, if_neg (not_not_intro rfl), mul_one]
    ring

/-- Claim C10 (code_bug): the claim says that requesting GPU execution with
no device available never makes construction fail — it downgrades to CPU for
the instance's lifetime with a warning.  The downgrade-and-warn logic of
lines 55-59 does behave exactly so, but construction still fails (for every
input) with the `NameError` of line 118, so "construction does not fail" is
false on the code as written.  Conjuncts: the warning fires exactly in the
claimed situation; the as-written construction fails at a concrete such
input; under the spec-intended repair of line 118 the same input constructs
successfully with the stored flag downgraded to CPU (and with a real device
the flag stays on GPU); and a call on a CPU-flagged instance is decided by
the stored flag alone — the availability of CUDA is never re-checked. -/
theorem C10_fallback_eval :
    fallbackWarned true false = true ∧
    (∀ (jn : ℤ → ℝ → ℝ) (jnZeros : ℤ → ℕ → ℝ),
      dhtInitPy false jn jnZeros 0 0 2 4 1 true =
        Except.error PyErr.nameError) ∧
    initUseCuda (dhtInitFixed pinv0 false toyJn toyZeros 0 0 2 4 1 true) =
      some false ∧
    initUseCuda (dhtInitFixed pinv0 true toyJn toyZeros 0 0 2 4 1 true) =
      some true ∧
    (∀ (W : Matrix (Fin 2) (Fin 2) ℝ) (F G : NpArr),
      transformDyn false 4 2 W F G = npDotOut 2 W F G) := by
  refine ⟨rfl, ?_, ?_, ?_, fun W F G => rfl⟩
  · intro jn jnZeros
    simp [dhtInitPy]
  · simp [dhtInitFixed, initUseCuda]
  · simp [dhtInitFixed, initUseCuda]

/-- Claim C6 (confirmed, under the facts that `rmax > 0` and that the first
zero of `J_0` is positive): for every valid construction, if `m ≠ 0` the
first spectral frequency is exactly 0 (the prepended synthetic root), and if
`m = 0` it is the first positive zero of `J_0` scaled by `1/(2*pi*rmax)`,
hence strictly positive. -/
theorem C6_zero_frequency (jnZeros : ℤ → ℕ → ℝ) (m : ℤ) (Nr : ℕ) (rmax : ℝ)
    (hNr : 0 < Nr) (hr : 0 < rmax) (hz : 0 < jnZeros 0 0) :
    (m ≠ 0 → nuF jnZeros m Nr rmax ⟨0, hNr⟩ = 0) ∧
    (m = 0 →
      nuF jnZeros m Nr rmax ⟨0, hNr⟩ = jnZeros 0 0 / (2 * Real.pi * rmax) ∧
      0 < nuF jnZeros m Nr rmax ⟨0, hNr⟩) := by
  constructor
  · intro hm
    simp [nuF, alphasF, hm]
  · intro hm
    subst hm
    have ha : alphasF jnZeros 0 Nr ⟨0, hNr⟩ = jnZeros 0 0 := by
      simp [alphasF]
    constructor
    · simp only [nuF, ha]
      rw [one_div, inv_mul_eq_div]
    · simp only [nuF, ha]
      exact mul_pos (by positivity) hz

/-- Claim C6 witness: the theorem applied at the concrete construction
`m = 0, Nr = 1, rmax = 1` with the toy zero table. -/
theorem C6_witness :
    (0 < 1) ∧ ((0 : ℝ) < 1) ∧ (0 < toyZeros 0 0) ∧
    0 < nuF toyZeros 0 1 1 ⟨0, Nat.one_pos⟩ :=
  ⟨Nat.one_pos, by norm_num, by norm_num [toyZeros],
    ((C6_zero_frequency toyZeros 0 1 1 Nat.one_pos (by norm_num)
      (by norm_num [toyZeros])).2 rfl).2⟩

/-- Claim C7 (confirmed, under the facts that `rmax > 0` and that the
positive zeros of `J_m` are positive and strictly increasing): for every
valid construction the spatial grid `r` and the spectral grid `nu` are
strictly increasing sequences of length `Nr` (the length is carried by the
`Fin Nr` index type). -/
theorem C7_grid_monotone (jnZeros : ℤ → ℕ → ℝ) (m : ℤ) (Nr : ℕ) (rmax : ℝ)
    (hr : 0 < rmax) (hpos : ∀ k, 0 < jnZeros m k)
    (hmono : StrictMono (jnZeros m)) :
    StrictMono (rF rmax Nr) ∧ StrictMono (nuF jnZeros m Nr rmax) := by
  constructor
  · intro i j hij
    have hN : (0 : ℝ) < (Nr : ℝ) := Nat.cast_pos.mpr i.pos
    have hv : ((i : ℕ) : ℝ) < ((j : ℕ) : ℝ) := by exact_mod_cast hij
    have hc : (0 : ℝ) < rmax * (1 / (Nr : ℝ)) := by positivity
    simp only [rF]
    apply mul_lt_mul_of_pos_left _ hc
    linarith
  · intro i j hij
    have hc : (0 : ℝ) < 1 / (2 * Real.pi * rmax) := by positivity
    have hv : (i : ℕ) < (j : ℕ) := hij
    simp only [nuF]
    apply mul_lt_mul_of_pos_left _ hc
    simp only [alphasF]
    by_cases hm : m ≠ 0
    · rw [if_pos hm, if_pos hm]
      by_cases hi0 : (i : ℕ) = 0
      · rw [if_pos hi0, if_neg (by omega)]
        exact hpos _
      · rw [if_neg hi0, if_neg (by omega)]
        exact hmono (by omega)
    · rw [if_neg hm, if_neg hm]
      exact hmono hv

/-- Claim C7 witness: the theorem applied at the concrete construction
`m = 1, Nr = 2, rmax = 1` with the toy zero table (positive and strictly
increasing). -/
theorem C7_witness :
    ((0 : ℝ) < 1) ∧ (∀ k, 0 < toyZeros 1 k) ∧ StrictMono (toyZeros 1) ∧
    StrictMono (rF 1 2) ∧ StrictMono (nuF toyZeros 1 2 1) := by
  have hpos : ∀ k, 0 < toyZeros 1 k := by
    intro k
    simp only [toyZeros]
    positivity
  have hmono : StrictMono (toyZeros 1) := by
    intro a b h
    have hv : (a : ℝ) < b := by exact_mod_cast h
    simp only [toyZeros]
    linarith
  exact ⟨by norm_num, hpos, hmono,
    (C7_grid_monotone toyZeros 1 2 1 (by norm_num) hpos hmono).1,
    (C7_grid_monotone toyZeros 1 2 1 (by norm_num) hpos hmono).2⟩

/-- Claim C4 (confirmed): for every valid construction, away from the
special row (`m = 0`, or row index nonzero) the inverse matrix satisfies
`invM[i,j] = jn(p, 2*pi*r[j]*nu[i]) / (pi*rmax^2*jn(p_denom, alphas[i])^2)`
with `p_denom = p+1` when `p = m` and `p_denom = p` otherwise; and when
`m ≠ 0` row 0 equals `r[j]^(m-1) / (pi*rmax^(m+1))` if `p = m-1` and is all
zeros otherwise. -/
theorem C4_invM_formula (jn : ℤ → ℝ → ℝ) (jnZeros : ℤ → ℕ → ℝ) (p m : ℤ)
    (Nr : ℕ) (rmax : ℝ) :
    (∀ i j : Fin Nr, m = 0 ∨ (i : ℕ) ≠ 0 →
      invMF jn jnZeros p m Nr rmax i j =
        jn p (2 * Real.pi * rF rmax Nr j * nuF jnZeros m Nr rmax i) /
          (Real.pi * rmax ^ 2 *
            jn (if p = m then p + 1 else p) (alphasF jnZeros m Nr i) ^ 2)) ∧
    (m ≠ 0 → ∀ i j : Fin Nr, (i : ℕ) = 0 →
      invMF jn jnZeros p m Nr rmax i j =
        if p = m - 1 then rF rmax Nr j ^ (m - 1) / (Real.pi * rmax ^ (m + 1))
        else 0) := by
  constructor
  · rintro i j (hm | hi)
    · subst hm
      simp [invMF, numF, denomF, pDenom]
    · by_cases hm : m = 0
      · subst hm
        simp [invMF, numF, denomF, pDenom]
      · simp [invMF, numF, denomF, pDenom, hm, hi]
  · intro hm i j hi
    simp [invMF, hm, hi]

/-- Claim C4 witness: the theorem applied at the concrete construction
`p = 0, m = 0, Nr = 1, rmax = 1` with the toy Bessel tables, entry (0,0). -/
theorem C4_witness :
    ((0 : ℤ) = 0 ∨ ((0 : Fin 1) : ℕ) ≠ 0) ∧
    invMF toyJn toyZeros 0 0 1 1 0 0 =
      toyJn 0 (2 * Real.pi * rF 1 1 0 * nuF toyZeros 0 1 1 0) /
        (Real.pi * (1 : ℝ) ^ 2 *
          toyJn (if (0 : ℤ) = 0 then 0 + 1 else 0)
            (alphasF toyZeros 0 1 0) ^ 2) :=
  ⟨Or.inl rfl, (C4_invM_formula toyJn toyZeros 0 0 1 1).1 0 0 (Or.inl rfl)⟩

/-- Claim C9 (confirmed; the GPU marshalling and gemm primitives live
outside this excerpt and are modelled from spec §4.3): for every stored
matrix (`M` or `invM`), every input array and every previous content of the
device scratch buffer, the GPU execution path — marshal in, multiply with
`alpha = 1, beta = 0`, marshal out — produces exactly the CPU execution
path's result `F @ W`; in exact arithmetic the two execution strategies
coincide, which implies equality within any floating-point tolerance. -/
theorem C9_gpu_cpu_equiv (Nz Nr : ℕ) (W : Matrix (Fin Nr) (Fin Nr) ℝ)
    (F : Matrix (Fin Nz) (Fin Nr) ℂ) (scratch : Matrix (Fin Nz) (Fin Nr) ℂ) :
    transformGPU W F scratch = transformMat W F := by
  have hcopy : ∀ {a b : ℕ} (A : Matrix (Fin a) (Fin b) ℂ), cudaCopy2d A = A :=
    fun _ => rfl
  simp [transformGPU, transformMat, gemmNN, hcopy]

/-- Claim C8 counterexample: the claim says that for EVERY wrong-shaped
input the call raises `ShapeMismatchError`, on either execution path.  On
the CPU path of a `DHT` configured with `(Nz, Nr) = (2, 1)`, calling
`transform` with `F` and `G` of shape `(1, 1)` — which differs from the
configured `(2, 1)` — raises nothing at all: the CPU branch (line 185)
performs no shape check and `np.dot` is happy with any aligned pair, so the
call succeeds and overwrites `G`. -/
theorem C8_shape_counterexample :
    transformDyn false 2 1 (mFixedF pinv0 toyJn toyZeros 0 0 1 1)
      arr11 arr11z ≠ Except.error PyErr.shapeMismatch := by
  intro h
  exact Except.noConfusion h

/-- Claim C8 (corrected): only the GPU execution path checks the supplied
arrays against the configured `(Nz, Nr)` — there, any `F` or `G` of a
different shape raises `ShapeMismatchError` with no partial write.  The CPU
path has no such check: it fails (with numpy's `np.dot` shape `ValueError`,
`G` untouched) exactly when the shapes are incompatible with the matrix
product (`F.cols ≠ Nr`, or `G.shape ≠ (F.rows, Nr)`), and a call whose `F`
and `G` have shape `(Nz', Nr)` with `Nz' ≠ Nz` is accepted and overwrites
`G` with `F @ W`.  The same holds symmetrically for `inverse_transform`
(the statement quantifies over the stored matrix `W`). -/
theorem C8_shape_amended (Nz Nr : ℕ) (W : Matrix (Fin Nr) (Fin Nr) ℝ) :
    (∀ F G : NpArr,
      ¬((F.rows, F.cols) = (Nz, Nr) ∧ (G.rows, G.cols) = (Nz, Nr)) →
      transformDyn true Nz Nr W F G = Except.error PyErr.shapeMismatch) ∧
    (∀ F G : NpArr, F.cols = Nr → G.rows = F.rows → G.cols = Nr →
      transformDyn false Nz Nr W F G = Except.ok (npDotRes Nr W F)) ∧
    (∀ F G : NpArr, ¬(F.cols = Nr ∧ G.rows = F.rows ∧ G.cols = Nr) →
      transformDyn false Nz Nr W F G = Except.error PyErr.dotShapeError) := by
  refine ⟨?_, ?_, ?_⟩
  · intro F G h
    have he : transformDyn true Nz Nr W F G = gpuApplyDyn Nz Nr W F G := rfl
    rw [he]
    unfold gpuApplyDyn
    rw [if_pos (by tauto)]
  · intro F G h1 h2 h3
    have he : transformDyn false Nz Nr W F G = npDotOut Nr W F G := rfl
    rw [he]
    unfold npDotOut
    rw [if_pos h1, if_pos ⟨h2, h3⟩]
  · intro F G h
    have he : transformDyn false Nz Nr W F G = npDotOut Nr W F G := rfl
    rw [he]
    unfold npDotOut
    by_cases h1 : F.cols = Nr
    · rw [if_pos h1, if_neg (by tauto)]
    · rw [if_neg h1]

/-- Claim C8 witness: the amended theorem applied to a `(2, 1)`-configured
instance — the GPU path rejects the `(1, 1)` arrays with
`ShapeMismatchError`, and the CPU path accepts the same arrays. -/
theorem C8_witness :
    ¬(((arr11.rows, arr11.cols) = (2, 1)) ∧
        ((arr11z.rows, arr11z.cols) = (2, 1))) ∧
    transformDyn true 2 1 (mFixedF pinv0 toyJn toyZeros 0 0 1 1)
      arr11 arr11z = Except.error PyErr.shapeMismatch ∧
    (arr11.cols = 1 ∧ arr11z.rows = arr11.rows ∧ arr11z.cols = 1) ∧
    transformDyn false 2 1 (mFixedF pinv0 toyJn toyZeros 0 0 1 1)
      arr11 arr11z =
      Except.ok (npDotRes 1 (mFixedF pinv0 toyJn toyZeros 0 0 1 1) arr11) := by
  have h := C8_shape_amended 2 1 (mFixedF pinv0 toyJn toyZeros 0 0 1 1)
  exact ⟨by decide, h.1 arr11 arr11z (by decide), ⟨rfl, rfl, rfl⟩,
    h.2.1 arr11 arr11z rfl rfl rfl⟩

/-- In the degenerate branch (`m ≠ 0`, `p ≠ m-1`): row 0 of `invM` is zero
and column 0 of `M` is zero, so if the pseudoinverse satisfies the
Moore-Penrose identity `invM[1:,:] * pinv(invM[1:,:]) = 1` then
`invM * M = diag(0, 1, …, 1)`. -/
lemma invM_mul_mFixed
    (pinv : (a b : ℕ) → Matrix (Fin a) (Fin b) ℝ → Matrix (Fin b) (Fin a) ℝ)
    (jn : ℤ → ℝ → ℝ) (jnZeros : ℤ → ℕ → ℝ) (p m : ℤ) (Nr : ℕ) (rmax : ℝ)
    (hm : m ≠ 0) (hp : p ≠ m - 1)
    (hAP : lowerRows (invMF jn jnZeros p m Nr rmax) *
        pinv (Nr - 1) Nr (lowerRows (invMF jn jnZeros p m Nr rmax)) = 1) :
    invMF jn jnZeros p m Nr rmax * mFixedF pinv jn jnZeros p m Nr rmax =
      zeroColMask Nr := by
  ext i j
  rw [Matrix.mul_apply]
  by_cases hj0 : (j : ℕ) = 0
  · have hMj : ∀ k, mFixedF pinv jn jnZeros p m Nr rmax k j = 0 := by
      intro k
      unfold mFixedF
      rw [if_pos ⟨hm, hp⟩]
      exact dif_pos hj0
    have hne : ¬(i = j ∧ (j : ℕ) ≠ 0) := fun hc => hc.2 hj0
    simp only [hMj, mul_zero, Finset.sum_const_zero, zeroColMask, if_neg hne]
  · have hMj : ∀ k, mFixedF pinv jn jnZeros p m Nr rmax k j =
        pinv (Nr - 1) Nr (lowerRows (invMF jn jnZeros p m Nr rmax)) k
          ⟨(j : ℕ) - 1, by have := j.isLt; omega⟩ := by
      intro k
      unfold mFixedF
      rw [if_pos ⟨hm, hp⟩]
      exact dif_neg hj0
    by_cases hi0 : (i : ℕ) = 0
    · have hIz : ∀ k, invMF jn jnZeros p m Nr rmax i k = 0 := by
        intro k
        simp only [invMF]
        rw [if_pos hm, if_pos hi0, if_neg hp]
      have hne : ¬(i = j ∧ (j : ℕ) ≠ 0) := fun hc => hj0 (hc.1 ▸ hi0)
      simp only [hIz, zero_mul, Finset.sum_const_zero, zeroColMask, if_neg hne]
    · have hIA : ∀ k, invMF jn jnZeros p m Nr rmax i k =
          lowerRows (invMF jn jnZeros p m Nr rmax)
            ⟨(i : ℕ) - 1, by have := i.isLt; omega⟩ k := by
        intro k
        simp only [lowerRows]
        have hfi : (⟨(i : ℕ) - 1 + 1, by have := i.isLt; omega⟩ : Fin Nr) = i :=
          Fin.ext (by show (i : ℕ) - 1 + 1 = (i : ℕ); omega)
        rw [hfi]
      rw [Finset.sum_congr rfl (fun k _ => by rw [hIA k, hMj k])]
      rw [← Matrix.mul_apply, hAP, Matrix.one_apply]
      simp only [zeroColMask]
      by_cases hij : i = j
      · subst hij
        rw [if_pos (Fin.ext rfl), if_pos ⟨rfl, hj0⟩]
      · have hv : (i : ℕ) ≠ (j : ℕ) := fun h => hij (Fin.ext h)
        have hfne : (⟨(i : ℕ) - 1, by have := i.isLt; omega⟩ : Fin (Nr - 1)) ≠
            ⟨(j : ℕ) - 1, by have := j.isLt; omega⟩ := by
          intro h
          have := congrArg Fin.val h
          simp only at this
          omega
        rw [if_neg hfne, if_neg (fun hc => hij hc.1)]

/-- The inverse matrix of the toy instance `p = 1, m = 1, Nr = 2, rmax = 1`:
row 0 is zero (since `p = m ≠ m - 1`), row 1 is `[1/pi, 1/pi]`. -/
lemma invM_toy112 :
    invMF toyJn toyZeros 1 1 2 1 =
      fun (i _ : Fin 2) => if (i : ℕ) = 0 then (0 : ℝ) else 1 / Real.pi := by
  funext i j
  simp only [invMF]
  rw [if_pos (by decide : (1 : ℤ) ≠ 0)]
  by_cases hi : (i : ℕ) = 0
  · rw [if_pos hi, if_neg (by decide : ¬(1 : ℤ) = 1 - 1), if_pos hi]
  · rw [if_neg hi, if_neg hi]
    simp only [numF, denomF, pDenom, toyJn]
    norm_num

/-- The forward matrix of the toy instance `p = 1, m = 1, Nr = 2, rmax = 1`
built with `pinvW`: column 0 is zero and column 1 is `[pi/2, pi/2]`. -/
lemma mFixed_toy112 :
    mFixedF pinvW toyJn toyZeros 1 1 2 1 =
      fun (_ j : Fin 2) => if (j : ℕ) = 0 then (0 : ℝ) else Real.pi / 2 := by
  unfold mFixedF
  rw [if_pos (by constructor <;> decide)]
  funext i j
  by_cases hj : (j : ℕ) = 0
  · rw [dif_pos hj, if_pos hj]
  · rw [dif_neg hj, if_neg hj]
    rfl

/-- Claim C1 (corrected): the exceptional mode combination is
`m ≠ 0, p ≠ m-1` (that is, `p = m` or `p = m+1`), not `m ≠ 0, p = m-1`.  In
exact arithmetic, for every valid construction (with the forward-matrix
allocation repaired to `Nr` as the spec directs): (i) when `m = 0` or
`p = m-1`, the code sets `M = inv(invM)`, and if `invM` is invertible the
round trip `inverse_transform(transform(F)) = F` holds for every complex
`F`; (ii) when `m ≠ 0` and `p ≠ m-1`, column 0 of `M` is (intentionally)
zero, and — provided the pseudoinverse satisfies the Moore-Penrose identity
`invM[1:,:] * pinv(invM[1:,:]) = 1`, which holds when `invM[1:,:]` has full
row rank — the recoverable direction is the spectral one:
`transform(inverse_transform(G))` equals `G` on every column except the
zero-frequency column 0. -/
theorem C1_roundtrip_amended
    (pinv : (a b : ℕ) → Matrix (Fin a) (Fin b) ℝ → Matrix (Fin b) (Fin a) ℝ)
    (jn : ℤ → ℝ → ℝ) (jnZeros : ℤ → ℕ → ℝ) (p m : ℤ) (Nz Nr : ℕ) (rmax : ℝ)
    (hval : m = p - 1 ∨ m = p ∨ m = p + 1) :
    ((m = 0 ∨ p = m - 1) →
      IsUnit (invMF jn jnZeros p m Nr rmax).det →
      ∀ F : Matrix (Fin Nz) (Fin Nr) ℂ,
        transformMat (invMF jn jnZeros p m Nr rmax)
          (transformMat (mFixedF pinv jn jnZeros p m Nr rmax) F) = F) ∧
    (m ≠ 0 → p ≠ m - 1 →
      (∀ i j : Fin Nr, (j : ℕ) = 0 →
        mFixedF pinv jn jnZeros p m Nr rmax i j = 0) ∧
      (lowerRows (invMF jn jnZeros p m Nr rmax) *
          pinv (Nr - 1) Nr (lowerRows (invMF jn jnZeros p m Nr rmax)) = 1 →
        ∀ (G : Matrix (Fin Nz) (Fin Nr) ℂ) (z : Fin Nz) (j : Fin Nr),
          (j : ℕ) ≠ 0 →
          transformMat (mFixedF pinv jn jnZeros p m Nr rmax)
            (transformMat (invMF jn jnZeros p m Nr rmax) G) z j = G z j)) := by
  constructor
  · intro hOr hdet F
    have hM : mFixedF pinv jn jnZeros p m Nr rmax =
        (invMF jn jnZeros p m Nr rmax)⁻¹ := by
      unfold mFixedF
      rw [if_neg]
      rcases hOr with h0 | h1
      · exact fun hc => hc.1 h0
      · exact fun hc => hc.2 h1
    rw [hM]
    unfold transformMat
    rw [Matrix.mul_assoc, ← Matrix.map_mul,
      Matrix.nonsing_inv_mul _ hdet,
      Matrix.map_one _ (map_zero _) (map_one _), Matrix.mul_one]
  · intro hm hp
    constructor
    · intro i j hj
      unfold mFixedF
      rw [if_pos ⟨hm, hp⟩]
      exact dif_pos hj
    · intro hAP G z j hj
      have hprod := invM_mul_mFixed pinv jn jnZeros p m Nr rmax hm hp hAP
      unfold transformMat
      rw [Matrix.mul_assoc, ← Matrix.map_mul, hprod, Matrix.mul_apply]
      have hmask : ∀ k : Fin Nr,
          ((zeroColMask Nr).map (algebraMap ℝ ℂ)) k j =
            if k = j then 1 else 0 := by
        intro k
        simp only [Matrix.map_apply, zeroColMask]
        rw [apply_ite (algebraMap ℝ ℂ), map_one, map_zero]
        exact if_congr (by simp [hj]) rfl rfl
      rw [Finset.sum_congr rfl (fun k _ => by rw [hmask k])]
      simp [mul_ite, mul_one, mul_zero, Finset.sum_ite_eq]

/-- Claim C1 counterexample: as stated, the claim demands a full round trip
for the combination `p = m, m ≠ 0` (its only exception is `p = m-1`).  At
the valid construction `p = 1, m = 1, Nr = 2, Nz = 1, rmax = 1` (toy Bessel
tables; `pinvW` agrees with the Moore-Penrose pseudoinverse of
`invM[1:, :]` here), the round trip of `F = [[1, 0]]` returns
`[[1/2, 1/2]] ≠ F`: row 0 of `invM` is identically zero for `p = m`, so the
transform pair is a rank-1 projection and cannot restore `F`. -/
theorem C1_roundtrip_counterexample :
    transformMat (invMF toyJn toyZeros 1 1 2 1)
      (transformMat (mFixedF pinvW toyJn toyZeros 1 1 2 1) cexF) ≠ cexF := by
  intro h
  have h00 := congrFun (congrFun h 0) 0
  rw [mFixed_toy112, invM_toy112] at h00
  simp [transformMat, Matrix.mul_apply, Fin.sum_univ_two, Matrix.map_apply,
    cexF] at h00
  have hc : ((Real.pi : ℂ) / 2 * (Real.pi : ℂ)⁻¹) =
      (((Real.pi / 2 * Real.pi⁻¹ : ℝ)) : ℂ) := by
    push_cast
    ring
  rw [hc] at h00
  have h00r : (Real.pi / 2 * Real.pi⁻¹ : ℝ) = 1 := by exact_mod_cast h00
  have h2 : Real.pi / 2 * Real.pi⁻¹ = 1 / 2 := by
    field_simp
    ring
  rw [h2] at h00r
  norm_num at h00r

/-- Claim C1 witness: the amended theorem applied to two concrete
constructions — the invertible branch at `p = 0, m = 0, Nr = 1, Nz = 1,
rmax = 1` (where `invM = [[1/pi]]` is invertible and the full round trip
restores `F = [[2]]`), and the degenerate branch at `p = 1, m = 1, Nr = 2,
Nz = 1, rmax = 1` (where the Moore-Penrose identity holds for `pinvW` and
the spectral-side round trip restores `G = [[3, 3]]` at column 1). -/
theorem C1_roundtrip_witness :
    IsUnit (invMF toyJn toyZeros 0 0 1 1).det ∧
    transformMat (invMF toyJn toyZeros 0 0 1 1)
      (transformMat (mFixedF pinv0 toyJn toyZeros 0 0 1 1) cF2) = cF2 ∧
    (lowerRows (invMF toyJn toyZeros 1 1 2 1) *
        pinvW (2 - 1) 2 (lowerRows (invMF toyJn toyZeros 1 1 2 1)) = 1) ∧
    transformMat (mFixedF pinvW toyJn toyZeros 1 1 2 1)
      (transformMat (invMF toyJn toyZeros 1 1 2 1) cG3) 0
        ⟨1, Nat.one_lt_two⟩ =
      cG3 0 ⟨1, Nat.one_lt_two⟩ := by
  have hdet : IsUnit (invMF toyJn toyZeros 0 0 1 1).det := by
    have hv : (invMF toyJn toyZeros 0 0 1 1).det =
        1 / (Real.pi * 1 ^ 2 * 1 ^ 2) := by
      rw [Matrix.det_fin_one]
      simp [invMF, numF, denomF, pDenom, toyJn]
    rw [hv]
    simp [isUnit_iff_ne_zero, Real.pi_ne_zero]
  have hAP : lowerRows (invMF toyJn toyZeros 1 1 2 1) *
      pinvW (2 - 1) 2 (lowerRows (invMF toyJn toyZeros 1 1 2 1)) = 1 := by
    rw [invM_toy112]
    ext i j
    fin_cases i
    fin_cases j
    rw [Matrix.mul_apply, Fin.sum_univ_two]
    simp only [lowerRows, pinvW, Matrix.one_apply_eq]
    norm_num [Real.pi_ne_zero]
    field_simp
  exact ⟨hdet,
    (C1_roundtrip_amended pinv0 toyJn toyZeros 0 0 1 1 1 (by decide)).1
      (Or.inl rfl) hdet cF2,
    hAP,
    ((C1_roundtrip_amended pinvW toyJn toyZeros 1 1 1 2 1 (by decide)).2
      (by decide) (by decide)).2 hAP cG3 0 ⟨1, Nat.one_lt_two⟩ (by decide)⟩

end Hankel

end
